import Mathlib

/-!
# Verification of the order lifecycle and stock-reservation workflow

Shallow embedding of the e-commerce backend's order workflow and user
operations.  The repository ships two divergent controller variants:

* the functional controllers (`src/controllers/orderController.js`,
  `src/controllers/userController.js`), embedded in namespaces
  `orderController` and `userController`;
* the class-based controllers (`OrderController` / `UserController`
  extending `BaseController`), embedded in namespaces `OrderController`
  and `UserController`.

Stores (MongoDB collections) are modelled as association lists from
numeric ids to documents; `findById` returns the first binding, and a
document save replaces every binding of that id.  Mongoose schema
validation (status enums, `quantity >= 1`) is modelled in the
`orderCreate` / `orderSave` steps, and the `pre('save')` hooks that
recompute order totals are modelled by `preSave`.
-/

/-- A product document (`src/models/Product.js`): the `stock` field has a
default of 0 but no minimum, so it is an unconstrained integer. -/
structure Product where
  name : String
  price : Int
  stock : Int
  isAvailable : Bool
deriving Repr, DecidableEq

/-- An embedded order line: product reference, quantity, price snapshot and
name snapshot taken at purchase time. -/
structure OrderItem where
  product : Nat
  quantity : Int
  price : Int
  name : String
deriving Repr, DecidableEq

/-- An order document (fields common to both Order schemas; the class-based
schema ignores the payment fields). -/
structure OrderDoc where
  user : Nat
  items : List OrderItem
  totalItems : Int
  totalPrice : Int
  status : String
  shippingAddress : String
  paymentStatus : String
  paidAt : Option Nat
  deliveredAt : Option Nat
deriving Repr, DecidableEq

/-- A user document; `name` doubles as the class variant's `username`. -/
structure UserDoc where
  name : String
  email : String
  password : String
  role : String
deriving Repr, DecidableEq

/-- The authenticated principal as read by the functional controllers
(`req.user._id`, `req.user.isAdmin`). -/
structure Principal where
  id : Nat
  isAdmin : Bool
deriving Repr, DecidableEq

/-- The authenticated principal as read by the class-based controllers
(`req.user._id`, `req.user.role`). -/
structure ClassPrincipal where
  id : Nat
  role : String
deriving Repr, DecidableEq

/-- One line of a create-order request body. -/
structure ItemReq where
  product : Nat
  quantity : Int
deriving Repr, DecidableEq

/-- The mutable database state seen by the order workflow. -/
structure State where
  products : List (Nat × Product)
  orders : List (Nat × OrderDoc)
  nextOrderId : Nat
deriving Repr, DecidableEq

/-- `Model.findById`: first binding of the id in the store. -/
def findById {α : Type} : List (Nat × α) → Nat → Option α
  | [], _ => none
  | (k, v) :: rest, i => if k = i then some v else findById rest i

/-- `document.save()` / `findByIdAndUpdate`: replace every binding of the id. -/
def saveById {α : Type} (l : List (Nat × α)) (i : Nat) (v : α) : List (Nat × α) :=
  l.map (fun kv => if kv.1 = i then (kv.1, v) else kv)

/-- `findByIdAndDelete`: drop every binding of the id. -/
def removeById {α : Type} (l : List (Nat × α)) (i : Nat) : List (Nat × α) :=
  l.filter (fun kv => kv.1 != i)

/-- Replace a product document in the state. -/
def saveProduct (st : State) (pid : Nat) (p : Product) : State :=
  { st with products := saveById st.products pid p }

/-- `Product.findByIdAndUpdate(pid, \x7b $inc: \x7b stock: qty \x7d \x7d)` —
also the shape of the cancel loop's `findById` / `if (product)` / `save`. -/
def incStock (st : State) (pid : Nat) (qty : Int) : State :=
  match findById st.products pid with
  | none => st
  | some p => saveProduct st pid { p with stock := p.stock + qty }

/-- Stock restitution: credit every line's quantity back to its product. -/
def restock (st : State) (items : List OrderItem) : State :=
  items.foldl (fun s it => incStock s it.product it.quantity) st

/-- Modelled from the spec: bcryptjs is an external collaborator; its salted
hash is modelled as an injective tagging of salt and plaintext. -/
def bcryptHash (salt plain : String) : String :=
  "$2b$10$" ++ salt ++ "$" ++ plain

/-- Modelled from the spec: bcryptjs.compare recognises exactly the strings
produced by `bcryptHash` for the given plaintext. -/
def bcryptCompare (plain hash : String) : Bool :=
  "$2b$10$".data.isPrefixOf hash.data && ("$" ++ plain).data.isSuffixOf hash.data

/-- Modelled from the spec: jwt.sign is an external collaborator producing an
opaque token from the payload and secret. -/
def jwtSign (email role secret : String) : String :=
  "jwt." ++ email ++ "." ++ role ++ "." ++ secret

/-- A failure produced inside the per-line validation loop of either
`createOrder` variant. -/
inductive LineError where
  | productNotFound (pid : Nat)
  | productUnavailable (name : String)
  | insufficientStock (name : String) (available requested : Int)
  | invalidItem
deriving Repr, DecidableEq

/-- Result of a create-order request (both controller variants). -/
inductive CreateResult where
  | unauthenticated
  | invalidOrder
  | invalidItem
  | productNotFound (pid : Nat)
  | productUnavailable (name : String)
  | insufficientStock (name : String) (available requested : Int)
  | serverError
  | created (oid : Nat) (order : OrderDoc)
deriving Repr, DecidableEq

/-- The HTTP response corresponding to a per-line failure. -/
def LineError.toResult : LineError → CreateResult
  | .productNotFound pid => .productNotFound pid
  | .productUnavailable name => .productUnavailable name
  | .insufficientStock name available requested =>
    .insufficientStock name available requested
  | .invalidItem => .invalidItem

/-- Result of an update-order-status request (both controller variants). -/
inductive UpdateResult where
  | forbidden
  | orderNotFound
  | invalidStatus
  | onlyCancelOwn
  | onlyPendingCancellable
  | serverError
  | ok (order : OrderDoc)
deriving Repr, DecidableEq

/-- Result of a cancel-order request. -/
inductive CancelResult where
  | orderNotFound
  | forbidden
  | invalidTransition (status : String)
  | serverError
  | ok (order : OrderDoc)
deriving Repr, DecidableEq

/-- Result of a delete-order request. -/
inductive DeleteResult where
  | forbidden
  | orderNotFound
  | ok (orderId : Nat)
deriving Repr, DecidableEq

namespace orderController

/-- Status enum of the functional Order schema. -/
def orderStatuses : List String :=
  ["pending", "processing", "shipped", "delivered", "cancelled"]

/-- Payment status enum of the functional Order schema. -/
def paymentStatuses : List String :=
  ["pending", "completed", "failed", "refunded"]

/-- Mongoose validation run on save/create of the functional Order schema:
every line quantity is at least 1 and both status fields are in their enums. -/
def validOrderDoc (o : OrderDoc) : Bool :=
  o.items.all (fun it => decide (1 ≤ it.quantity)) &&
    orderStatuses.contains o.status && paymentStatuses.contains o.paymentStatus

/-- The `orderSchema.pre('save')` hook: recompute both totals from the items. -/
def preSave (o : OrderDoc) : OrderDoc :=
  { o with
    totalItems := o.items.foldl (fun sum item => sum + item.quantity) 0
    totalPrice := o.items.foldl (fun sum item => sum + item.price * item.quantity) 0 }

/-- `Order.create`: validate, run the pre-save hook, persist under a fresh id. -/
def orderCreate (st : State) (o : OrderDoc) : Option (Nat × OrderDoc) × State :=
  if validOrderDoc o then
    let o' := preSave o
    (some (st.nextOrderId, o'),
      { st with orders := st.orders ++ [(st.nextOrderId, o')],
                nextOrderId := st.nextOrderId + 1 })
  else (none, st)

/-- `order.save()` on an existing order: validate, pre-save hook, replace. -/
def orderSave (st : State) (oid : Nat) (o : OrderDoc) : Option State :=
  if validOrderDoc o then
    some { st with orders := saveById st.orders oid (preSave o) }
  else none

/-- The per-line loop of `createOrder`: look the product up, check stock,
snapshot the line, then decrement and persist the stock immediately. -/
def processItems (st : State) (reqs : List ItemReq) (acc : List OrderItem) :
    Except LineError (List OrderItem) × State :=
  match reqs with
  | [] => (.ok acc, st)
  | item :: rest =>
    match findById st.products item.product with
    | none => (.error (.productNotFound item.product), st)
    | some product =>
      if product.stock < item.quantity then
        (.error (.insufficientStock product.name product.stock item.quantity), st)
      else
        processItems
          (saveProduct st item.product { product with stock := product.stock - item.quantity })
          rest
          (acc ++ [{ product := item.product, quantity := item.quantity,
                     price := product.price, name := product.name }])

/-- `createOrder` (functional variant): authentication check, empty-items
check, per-line validation with immediate stock decrement, then `Order.create`
with totals computed by `reduce` over the snapshot lines. -/
def createOrder (st : State) (user? : Option Nat) (items? : Option (List ItemReq))
    (shippingAddress : String) (payStatus? : Option String) : CreateResult × State :=
  match user? with
  | none => (.unauthenticated, st)
  | some uid =>
    match items? with
    | none => (.invalidOrder, st)
    | some items =>
      if items.length = 0 then (.invalidOrder, st)
      else
        match processItems st items [] with
        | (.error e, st1) => (e.toResult, st1)
        | (.ok orderItems, st1) =>
          let doc : OrderDoc :=
            { user := uid
              items := orderItems
              totalItems := orderItems.foldl (fun sum item => sum + item.quantity) 0
              totalPrice := orderItems.foldl (fun sum item => sum + item.price * item.quantity) 0
              status := "pending"
              shippingAddress := shippingAddress
              paymentStatus := payStatus?.getD "pending"
              paidAt := none
              deliveredAt := none }
          match orderCreate st1 doc with
          | (none, st2) => (.serverError, st2)
          | (some (oid, o'), st2) => (.created oid o', st2)

/-- The wall clock (`Date.now()`), irrelevant to the verified properties. -/
def dateNow : Nat := 0

/-- `updateOrderStatus` (functional variant): admin-only; sets the requested
status (stamping `deliveredAt` on "delivered") and payment status (stamping
`paidAt` on "completed"), then saves.  There is no stock restitution. -/
def updateOrderStatus (st : State) (principal : Principal) (orderId : Nat)
    (status? : Option String) (payStatus? : Option String) : UpdateResult × State :=
  if ¬principal.isAdmin then (.forbidden, st)
  else
    match findById st.orders orderId with
    | none => (.orderNotFound, st)
    | some order =>
      let order1 :=
        match status? with
        | none => order
        | some s =>
          if s = "" then order
          else
            { order with
              status := s
              deliveredAt := (if s = "delivered" then some dateNow else order.deliveredAt) }
      let order2 :=
        match payStatus? with
        | none => order1
        | some ps =>
          if ps = "" then order1
          else
            { order1 with
              paymentStatus := ps
              paidAt := (if ps = "completed" then some dateNow else order1.paidAt) }
      match orderSave st orderId order2 with
      | none => (.serverError, st)
      | some st' => (.ok (preSave order2), st')

/-- `cancelOrder` (functional variant): the owner or an admin may cancel an
order that is "pending" or "processing"; stock is credited back line by line
and the order is saved with status "cancelled". -/
def cancelOrder (st : State) (principal : Principal) (orderId : Nat) :
    CancelResult × State :=
  match findById st.orders orderId with
  | none => (.orderNotFound, st)
  | some order =>
    if order.user ≠ principal.id ∧ ¬principal.isAdmin then (.forbidden, st)
    else if ¬(order.status = "pending" ∨ order.status = "processing") then
      (.invalidTransition order.status, st)
    else
      let st1 := restock st order.items
      let order' := { order with status := "cancelled" }
      match orderSave st1 orderId order' with
      | none => (.serverError, st1)
      | some st2 => (.ok (preSave order'), st2)

end orderController

namespace OrderController

/-- Status enum of the class-based Order schema. -/
def statusEnum : List String := ["pending", "completed", "cancelled"]

/-- The class-based `pre('save')` hook: recompute totals only when the items
array is non-empty. -/
def preSave (o : OrderDoc) : OrderDoc :=
  if o.items.length > 0 then
    { o with
      totalItems := o.items.foldl (fun sum item => sum + item.quantity) 0
      totalPrice := o.items.foldl (fun sum item => sum + item.price * item.quantity) 0 }
  else o

/-- Mongoose validation of the class-based Order schema: line quantities at
least 1 and the status in its enum. -/
def validOrderDoc (o : OrderDoc) : Bool :=
  o.items.all (fun it => decide (1 ≤ it.quantity)) && statusEnum.contains o.status

/-- `Order.create` for the class-based schema. -/
def orderCreate (st : State) (o : OrderDoc) : Option (Nat × OrderDoc) × State :=
  if validOrderDoc o then
    let o' := preSave o
    (some (st.nextOrderId, o'),
      { st with orders := st.orders ++ [(st.nextOrderId, o')],
                nextOrderId := st.nextOrderId + 1 })
  else (none, st)

/-- `order.save()` for the class-based schema. -/
def orderSave (st : State) (oid : Nat) (o : OrderDoc) : Option State :=
  if validOrderDoc o then
    some { st with orders := saveById st.orders oid (preSave o) }
  else none

/-- The per-line loop of the class-based `createOrder`: quantity check,
product lookup, availability check, stock check, snapshot with running
totals, then immediate stock decrement. -/
def processItems (st : State) (reqs : List ItemReq) (acc : List OrderItem)
    (totalPrice totalItems : Int) :
    Except LineError (List OrderItem × Int × Int) × State :=
  match reqs with
  | [] => (.ok (acc, totalPrice, totalItems), st)
  | item :: rest =>
    if item.quantity < 1 then (.error .invalidItem, st)
    else
      match findById st.products item.product with
      | none => (.error (.productNotFound item.product), st)
      | some product =>
        if ¬product.isAvailable then (.error (.productUnavailable product.name), st)
        else if product.stock < item.quantity then
          (.error (.insufficientStock product.name product.stock item.quantity), st)
        else
          processItems
            (saveProduct st item.product { product with stock := product.stock - item.quantity })
            rest
            (acc ++ [{ product := item.product, quantity := item.quantity,
                       price := product.price, name := product.name }])
            (totalPrice + product.price * item.quantity)
            (totalItems + item.quantity)

/-- `OrderController.createOrder`: empty-items check, per-line validation
(including `isAvailable`) with immediate stock decrement, then `Order.create`
with the accumulated totals and status "pending". -/
def createOrder (st : State) (principal : ClassPrincipal)
    (items? : Option (List ItemReq)) (shippingAddress : String) :
    CreateResult × State :=
  match items? with
  | none => (.invalidOrder, st)
  | some items =>
    if items.length = 0 then (.invalidOrder, st)
    else
      match processItems st items [] 0 0 with
      | (.error e, st1) => (e.toResult, st1)
      | (.ok (orderItems, totalPrice, totalItems), st1) =>
        let doc : OrderDoc :=
          { user := principal.id
            items := orderItems
            totalItems := totalItems
            totalPrice := totalPrice
            status := "pending"
            shippingAddress := shippingAddress
            paymentStatus := ""
            paidAt := none
            deliveredAt := none }
        match orderCreate st1 doc with
        | (none, st2) => (.serverError, st2)
        | (some (oid, o'), st2) => (.created oid o', st2)

/-- `OrderController.updateOrderStatus`: status must be in the enum; an admin
may set any transition; a non-admin may only cancel their own pending order.
Setting "cancelled" on a not-yet-cancelled order credits every line's
quantity back to its product before the order is saved. -/
def updateOrderStatus (st : State) (principal : ClassPrincipal) (orderId : Nat)
    (status? : Option String) : UpdateResult × State :=
  match status? with
  | none => (.invalidStatus, st)
  | some status =>
    if statusEnum.contains status then
      match findById st.orders orderId with
      | none => (.orderNotFound, st)
      | some order =>
        if principal.role ≠ "admin" ∧ order.user ≠ principal.id then (.forbidden, st)
        else if principal.role ≠ "admin" ∧ status ≠ "cancelled" then (.onlyCancelOwn, st)
        else if principal.role ≠ "admin" ∧ order.status ≠ "pending" then
          (.onlyPendingCancellable, st)
        else
          let st1 :=
            if status = "cancelled" ∧ order.status ≠ "cancelled" then
              restock st order.items
            else st
          let order' := { order with status := status }
          match orderSave st1 orderId order' with
          | none => (.serverError, st1)
          | some st2 => (.ok (preSave order'), st2)
    else (.invalidStatus, st)

/-- `OrderController.deleteOrder`: admin-only; restitutes stock once unless
the order is already cancelled, then removes the order permanently. -/
def deleteOrder (st : State) (principal : ClassPrincipal) (orderId : Nat) :
    DeleteResult × State :=
  if principal.role ≠ "admin" then (.forbidden, st)
  else
    match findById st.orders orderId with
    | none => (.orderNotFound, st)
    | some order =>
      let st1 := if order.status ≠ "cancelled" then restock st order.items else st
      (.ok orderId, { st1 with orders := removeById st1.orders orderId })

end OrderController

/-- Result of a login request (functional variant). -/
inductive LoginResult where
  | invalidUser
  | invalidPassword
  | ok (user : UserDoc) (token : String)
deriving Repr, DecidableEq

/-- The fields a user update request body may carry. -/
structure UpdateBody where
  name? : Option String
  email? : Option String
  password? : Option String
  role? : Option String
deriving Repr, DecidableEq

namespace userController

/-- `User.findOne(\x7b email \x7d)`: first user document with that email. -/
def findOneByEmail : List (Nat × UserDoc) → String → Option UserDoc
  | [], _ => none
  | (_, u) :: rest, e => if u.email = e then some u else findOneByEmail rest e

/-- `login` (functional variant): look the user up by email, compare the
password with bcrypt, and on success respond with the token and the entire
stored user document. -/
def login (users : List (Nat × UserDoc)) (email password secret : String) :
    LoginResult :=
  match findOneByEmail users email with
  | none => .invalidUser
  | some user =>
    if bcryptCompare password user.password then
      .ok user (jwtSign user.email user.role secret)
    else .invalidPassword

/-- `createUser` (functional variant): hash the supplied password with a
fresh salt and persist the new user. -/
def createUser (users : List (Nat × UserDoc)) (nextId : Nat)
    (salt name email password role : String) :
    UserDoc × List (Nat × UserDoc) :=
  let u : UserDoc := { name := name, email := email,
                       password := bcryptHash salt password, role := role }
  (u, users ++ [(nextId, u)])

/-- `findByIdAndUpdate(userId, req.body)`: every field present in the body is
written to the document verbatim. -/
def applyBody (u : UserDoc) (b : UpdateBody) : UserDoc :=
  { u with
    name := b.name?.getD u.name
    email := b.email?.getD u.email
    password := b.password?.getD u.password
    role := b.role?.getD u.role }

/-- `updateUser` (functional variant): pass the raw request body straight to
`findByIdAndUpdate` — no permission check and no password hashing. -/
def updateUser (users : List (Nat × UserDoc)) (userId : Nat) (b : UpdateBody) :
    Option UserDoc × List (Nat × UserDoc) :=
  match findById users userId with
  | none => (none, users)
  | some u =>
    let u' := applyBody u b
    (some u', saveById users userId u')

end userController

/-- Result of the class-based `updateUser`. -/
inductive UpdateUserResult where
  | forbidden
  | notFound
  | duplicateName
  | duplicateEmail
  | ok (user : UserDoc)
deriving Repr, DecidableEq

namespace UserController

/-- JavaScript string truthiness for an optional body field. -/
def truthy : Option String → Bool
  | none => false
  | some s => !(s == "")

/-- Is some other user (different id) already using this username? -/
def takenName (users : List (Nat × UserDoc)) (userId : Nat) (nm : String) : Bool :=
  users.any (fun kv => kv.1 != userId && kv.2.name == nm)

/-- Is some other user (different id) already using this email? -/
def takenEmail (users : List (Nat × UserDoc)) (userId : Nat) (em : String) : Bool :=
  users.any (fun kv => kv.1 != userId && kv.2.email == em)

/-- `UserController.updateUser`: only the user themselves or an admin may
edit; username and email are checked for uniqueness; a supplied password is
re-hashed with a fresh salt before storage; only an admin may change roles. -/
def updateUser (users : List (Nat × UserDoc)) (principal : ClassPrincipal)
    (userId : Nat) (salt : String) (b : UpdateBody) :
    UpdateUserResult × List (Nat × UserDoc) :=
  if userId ≠ principal.id ∧ principal.role ≠ "admin" then (.forbidden, users)
  else
    match findById users userId with
    | none => (.notFound, users)
    | some u =>
      if truthy b.name? ∧ takenName users userId (b.name?.getD "") then
        (.duplicateName, users)
      else if truthy b.email? ∧ takenEmail users userId (b.email?.getD "") then
        (.duplicateEmail, users)
      else
        let u' : UserDoc :=
          { name := if truthy b.name? then b.name?.getD u.name else u.name
            email := if truthy b.email? then b.email?.getD u.email else u.email
            password := if truthy b.password? then bcryptHash salt (b.password?.getD "")
                        else u.password
            role := if truthy b.role? ∧ principal.role = "admin" then b.role?.getD u.role
                    else u.role }
        (.ok u', saveById users userId u')

end UserController

/-- One order-workflow operation, from either controller variant. -/
inductive Op where
  | create (user? : Option Nat) (items? : Option (List ItemReq))
      (addr : String) (pay? : Option String)
  | classCreate (principal : ClassPrincipal) (items? : Option (List ItemReq))
      (addr : String)
  | cancel (principal : Principal) (orderId : Nat)
  | updateStatus (principal : Principal) (orderId : Nat)
      (status? payStatus? : Option String)
  | classUpdateStatus (principal : ClassPrincipal) (orderId : Nat)
      (status? : Option String)
  | classDelete (principal : ClassPrincipal) (orderId : Nat)
deriving Repr, DecidableEq

/-- The state reached after one operation, discarding the HTTP response. -/
def applyOp (st : State) (op : Op) : State :=
  match op with
  | .create user? items? addr pay? =>
    (orderController.createOrder st user? items? addr pay?).2
  | .classCreate principal items? addr =>
    (OrderController.createOrder st principal items? addr).2
  | .cancel principal oid => (orderController.cancelOrder st principal oid).2
  | .updateStatus principal oid status? pay? =>
    (orderController.updateOrderStatus st principal oid status? pay?).2
  | .classUpdateStatus principal oid status? =>
    (OrderController.updateOrderStatus st principal oid status?).2
  | .classDelete principal oid => (OrderController.deleteOrder st principal oid).2

/-- The state reached after a finite sequence of operations. -/
def runOps (st : State) (ops : List Op) : State :=
  ops.foldl applyOp st

/-- Every product in the catalog has non-negative stock. -/
def StocksNonneg (st : State) : Prop :=
  ∀ kv ∈ st.products, 0 ≤ (kv : Nat × Product).2.stock

/-- Every persisted order has only lines of quantity at least 1 (what the
mongoose `min: 1` validator guarantees for stored orders). -/
def OrdersWF (st : State) : Prop :=
  ∀ kv ∈ st.orders, ∀ it ∈ (kv : Nat × OrderDoc).2.items, 1 ≤ it.quantity

/-- Well-formedness of a database state. -/
def WFState (st : State) : Prop := StocksNonneg st ∧ OrdersWF st

instance (st : State) : Decidable (StocksNonneg st) := by
  unfold StocksNonneg; infer_instance

instance (st : State) : Decidable (OrdersWF st) := by
  unfold OrdersWF; infer_instance

instance (st : State) : Decidable (WFState st) := by
  unfold WFState; infer_instance

/-- Total quantity referencing one product across the lines of an order. -/
def qtySum (pid : Nat) (items : List OrderItem) : Int :=
  ((items.filter (fun it => it.product == pid)).map (fun it => it.quantity)).sum

/-! Concrete sample documents and states used by witnesses and
counterexamples. -/

/-- Sample product: in stock and available. -/
def prodA : Product := { name := "A", price := 10, stock := 5, isAvailable := true }

/-- Sample product that is explicitly not available for sale. -/
def prodU : Product := { name := "U", price := 4, stock := 10, isAvailable := false }

/-- Sample order line: two units of product 1 at the snapshot price 10. -/
def lineA2 : OrderItem := { product := 1, quantity := 2, price := 10, name := "A" }

/-- Sample pending order of user 2 holding `lineA2`. -/
def orderPending : OrderDoc :=
  { user := 2, items := [lineA2], totalItems := 2, totalPrice := 20,
    status := "pending", shippingAddress := "addr", paymentStatus := "pending",
    paidAt := none, deliveredAt := none }

/-- State with one catalog product and one pending order. -/
def stOrder : State :=
  { products := [(1, prodA)], orders := [(7, orderPending)], nextOrderId := 8 }

/-- State with one catalog product and no orders. -/
def stCatalog : State :=
  { products := [(1, prodA)], orders := [], nextOrderId := 1 }

/-- State whose only product is not available. -/
def stUnavail : State :=
  { products := [(1, prodU)], orders := [], nextOrderId := 1 }

/-- An administrator principal (functional variant). -/
def adminP : Principal := { id := 9, isAdmin := true }

/-- The owner of `orderPending`, not an administrator (functional variant). -/
def ownerP : Principal := { id := 2, isAdmin := false }

/-- An administrator principal (class variant). -/
def adminC : ClassPrincipal := { id := 9, role := "admin" }

/-- The owner of `orderPending`, not an administrator (class variant). -/
def ownerC : ClassPrincipal := { id := 2, role := "user" }

/-- A stored user whose password is a bcrypt hash of "pw123". -/
def hashedUser : UserDoc :=
  { name := "alice", email := "a@b.c", password := bcryptHash "saltsalt" "pw123",
    role := "USER_ROLE" }

/-- A user store holding only `hashedUser`. -/
def usersStore : List (Nat × UserDoc) := [(1, hashedUser)]

/-- The order produced by `createOrder stCatalog` for three units of
product 1. -/
def wOrderC2 : OrderDoc :=
  { user := 2, items := [{ product := 1, quantity := 3, price := 10, name := "A" }],
    totalItems := 3, totalPrice := 30, status := "pending", shippingAddress := "a",
    paymentStatus := "pending", paidAt := none, deliveredAt := none }

/-- The state left behind by that successful order creation. -/
def wStateC2 : State :=
  { products := [(1, { prodA with stock := 2 })], orders := [(1, wOrderC2)],
    nextOrderId := 2 }

/-- `orderPending` after a successful cancellation. -/
def wOrderC5 : OrderDoc := { orderPending with status := "cancelled" }

/-- The state after the first successful `cancelOrder` on `stOrder`: two
units credited back to product 1 and the order marked cancelled. -/
def wStateC5 : State :=
  { products := [(1, { prodA with stock := 7 })], orders := [(7, wOrderC5)],
    nextOrderId := 8 }

/-- The order the functional `createOrder` creates for two units of the
unavailable product `prodU`. -/
def wOrderC6 : OrderDoc :=
  { user := 2, items := [{ product := 1, quantity := 2, price := 4, name := "U" }],
    totalItems := 2, totalPrice := 8, status := "pending", shippingAddress := "a",
    paymentStatus := "pending", paidAt := none, deliveredAt := none }

/-- The order the class-based `createOrder` creates on `stCatalog` for two
units of product 1. -/
def wOrderC6b : OrderDoc :=
  { user := 2, items := [{ product := 1, quantity := 2, price := 10, name := "A" }],
    totalItems := 2, totalPrice := 20, status := "pending", shippingAddress := "a",
    paymentStatus := "", paidAt := none, deliveredAt := none }

/-- The state left behind by that class-based order creation. -/
def wStateC6b : State :=
  { products := [(1, { prodA with stock := 3 })], orders := [(1, wOrderC6b)],
    nextOrderId := 2 }

/-! ## Store lemmas -/

theorem findById_mem {α : Type} {l : List (Nat × α)} {i : Nat} {v : α}
    (h : findById l i = some v) : (i, v) ∈ l := by
  induction l with
  | nil => simp [findById] at h
  | cons kv rest ih =>
    obtain ⟨k, w⟩ := kv
    simp only [findById] at h
    split at h
    · next heq =>
      obtain rfl := heq
      obtain rfl : w = v := by simpa using h
      exact List.mem_cons_self _ _
    · exact List.mem_cons_of_mem _ (ih h)

theorem mem_saveById {α : Type} {l : List (Nat × α)} {i : Nat} {v : α}
    {kv : Nat × α} (h : kv ∈ saveById l i v) : kv ∈ l ∨ kv = (i, v) := by
  unfold saveById at h
  rcases List.mem_map.mp h with ⟨kv0, hkv0, heq⟩
  by_cases hk : kv0.1 = i
  · right
    simp only [hk, if_pos] at heq
    simp [← heq, hk]
  · left
    rw [if_neg hk] at heq
    exact heq ▸ hkv0

theorem findById_cons {α : Type} (k : Nat) (w : α) (rest : List (Nat × α)) (j : Nat) :
    findById ((k, w) :: rest) j = if k = j then some w else findById rest j := rfl

theorem saveById_cons {α : Type} (k : Nat) (w : α) (rest : List (Nat × α))
    (i : Nat) (v : α) :
    saveById ((k, w) :: rest) i v =
      (if k = i then (k, v) else (k, w)) :: saveById rest i v := by
  by_cases hk : k = i <;> simp [saveById, hk]

theorem removeById_cons {α : Type} (k : Nat) (w : α) (rest : List (Nat × α)) (i : Nat) :
    removeById ((k, w) :: rest) i =
      if k = i then removeById rest i else (k, w) :: removeById rest i := by
  by_cases hk : k = i <;> simp [removeById, List.filter_cons, hk]

theorem findById_saveById {α : Type} (l : List (Nat × α)) (i j : Nat) (v : α) :
    findById (saveById l i v) j =
      if j = i then (findById l i).map (fun _ => v) else findById l j := by
  induction l with
  | nil => by_cases hj : j = i <;> simp [findById, saveById, hj]
  | cons kv rest ih =>
    obtain ⟨k, w⟩ := kv
    rw [saveById_cons]
    by_cases hk : k = i
    · rw [if_pos hk]
      subst hk
      by_cases hj : k = j
      · subst hj
        simp [findById_cons]
      · simp [findById_cons, hj, Ne.symm hj, ih]
    · rw [if_neg hk]
      by_cases hj : k = j
      · subst hj
        simp [findById_cons, hk]
      · simp [findById_cons, hk, hj, Ne.symm hj, ih]

theorem findById_append {α : Type} (l l' : List (Nat × α)) (j : Nat) :
    findById (l ++ l') j =
      match findById l j with
      | some v => some v
      | none => findById l' j := by
  induction l with
  | nil => simp [findById]
  | cons kv rest ih =>
    obtain ⟨k, w⟩ := kv
    by_cases hj : k = j <;> simp [findById, hj, ih]

theorem findById_removeById {α : Type} (l : List (Nat × α)) (i j : Nat) :
    findById (removeById l i) j = if j = i then none else findById l j := by
  induction l with
  | nil => by_cases hj : j = i <;> simp [findById, removeById, hj]
  | cons kv rest ih =>
    obtain ⟨k, w⟩ := kv
    rw [removeById_cons]
    by_cases hk : k = i
    · rw [if_pos hk]
      subst hk
      by_cases hj : j = k
      · subst hj
        simp [findById_cons, ih]
      · simp [findById_cons, hj, Ne.symm hj, ih]
    · rw [if_neg hk]
      by_cases hj : k = j
      · subst hj
        simp [findById_cons, hk]
      · simp [findById_cons, hk, hj, Ne.symm hj, ih]

theorem mem_removeById {α : Type} {l : List (Nat × α)} {i : Nat} {kv : Nat × α}
    (h : kv ∈ removeById l i) : kv ∈ l :=
  List.mem_of_mem_filter h

theorem foldl_add_map (f : OrderItem → Int) :
    ∀ (l : List OrderItem) (init : Int),
      l.foldl (fun s it => s + f it) init = init + (l.map f).sum := by
  intro l
  induction l with
  | nil => intro init; simp
  | cons a l ih =>
    intro init
    simp [List.foldl_cons, ih (init + f a), add_assoc]

/-! ## C8: empty or absent items -/

/-- C8: for every authenticated request whose items array is empty or absent,
`createOrder` fails with the invalid-order error and leaves the whole state —
in particular every product's stock — unchanged. -/
theorem createOrder_empty_items (st : State) (uid : Nat)
    (items? : Option (List ItemReq)) (addr : String) (pay? : Option String)
    (h : items? = none ∨ items? = some []) :
    orderController.createOrder st (some uid) items? addr pay? =
      (.invalidOrder, st) := by
  rcases h with h | h <;> subst h <;> rfl

/-- C8 witness: the empty-items request on the sample catalog. -/
theorem createOrder_empty_items_witness :
    orderController.createOrder stCatalog (some 2) (some []) "a" none =
      (.invalidOrder, stCatalog) :=
  createOrder_empty_items stCatalog 2 (some []) "a" none (Or.inr rfl)

/-! ## C3: partial stock decrement persists on failure -/

/-- C3: a two-line request on `stCatalog` (product 1 in stock, product 2
nonexistent) aborts with product-not-found on the second line, creates no
order, yet the first line's stock decrement (5 to 2) persists. -/
theorem createOrder_partial_decrement_persists :
    prodA.stock = 5 ∧
    (orderController.createOrder stCatalog (some 2)
        (some [⟨1, 3⟩, ⟨2, 1⟩]) "a" none).1 = .productNotFound 2 ∧
    (orderController.createOrder stCatalog (some 2)
        (some [⟨1, 3⟩, ⟨2, 1⟩]) "a" none).2.orders = stCatalog.orders ∧
    findById (orderController.createOrder stCatalog (some 2)
        (some [⟨1, 3⟩, ⟨2, 1⟩]) "a" none).2.products 1 =
      some { prodA with stock := 2 } := by
  decide

/-! ## C2: totals of a successfully created order -/

theorem preSave_items (o : OrderDoc) :
    (orderController.preSave o).items = o.items := rfl

/-- C2: every order the functional `createOrder` reports as created has
`totalItems` equal to the sum of its line quantities and `totalPrice` equal
to the sum of line price times quantity, and that very document is persisted
in the resulting state. -/
theorem createOrder_totals_correct (st : State) (user? : Option Nat)
    (items? : Option (List ItemReq)) (addr : String) (pay? : Option String)
    (oid : Nat) (o : OrderDoc) (st' : State)
    (h : orderController.createOrder st user? items? addr pay? =
      (.created oid o, st')) :
    o.totalItems = (o.items.map (fun it => it.quantity)).sum ∧
    o.totalPrice = (o.items.map (fun it => it.price * it.quantity)).sum ∧
    (oid, o) ∈ st'.orders := by
  unfold orderController.createOrder at h
  split at h
  · simp at h
  · split at h
    · simp at h
    · split at h
      · simp at h
      · split at h
        · rename_i e st1 heq
          cases e <;> simp [LineError.toResult] at h
        · rename_i orderItems st1 heq
          simp only [orderController.orderCreate] at h
          split at h
          · simp at h
          · rename_i oid2 o2 st2 heq2
            simp only [Prod.mk.injEq, CreateResult.created.injEq] at h
            obtain ⟨⟨rfl, rfl⟩, rfl⟩ := h
            split at heq2
            · simp only [Option.some.injEq, Prod.mk.injEq] at heq2
              obtain ⟨⟨rfl, rfl⟩, rfl⟩ := heq2
              refine ⟨?_, ?_, ?_⟩
              · simp [orderController.preSave, foldl_add_map]
              · simp [orderController.preSave, foldl_add_map]
              · simp
            · simp at heq2

/-- C2 witness: the single-line order of three units of product 1. -/
theorem createOrder_totals_witness :
    wOrderC2.totalItems = (wOrderC2.items.map (fun it => it.quantity)).sum ∧
    wOrderC2.totalPrice = (wOrderC2.items.map (fun it => it.price * it.quantity)).sum ∧
    (1, wOrderC2) ∈ wStateC2.orders :=
  createOrder_totals_correct stCatalog (some 2) (some [⟨1, 3⟩]) "a" none
    1 wOrderC2 wStateC2 (by decide)

/-! ## C10: login response contains the stored user document -/

/-- C10: whenever login succeeds (the email resolves to a stored user and the
bcrypt comparison accepts the supplied password), the response is built from
the entire stored user document `u` — including its `password` field, i.e.
the stored salted hash is disclosed to the caller alongside the token. -/
theorem login_discloses_password_hash (users : List (Nat × UserDoc))
    (email password secret : String) (u : UserDoc)
    (h1 : userController.findOneByEmail users email = some u)
    (h2 : bcryptCompare password u.password = true) :
    userController.login users email password secret =
      .ok u (jwtSign u.email u.role secret) := by
  unfold userController.login
  rw [h1]
  simp [h2]

/-- C10 witness: logging in as the sample user returns the full document with
its bcrypt-hashed password. -/
theorem login_discloses_witness :
    userController.login usersStore "a@b.c" "pw123" "sec" =
      .ok hashedUser (jwtSign hashedUser.email hashedUser.role "sec") :=
  login_discloses_password_hash usersStore "a@b.c" "pw123" "sec" hashedUser
    (by decide) (by decide)

/-! ## C9: the functional updateUser stores the supplied password verbatim -/

/-- C9 (failing input): updating user 1 with a body carrying password
"hunter2" makes the functional `updateUser` persist exactly the string
"hunter2", which is not a bcrypt hash of it for any salt — contradicting the
stored-as-salted-hash invariant that `createUser` and the class-based
`UserController.updateUser` maintain. -/
theorem updateUser_plaintext_password :
    (userController.updateUser usersStore 1
        { name? := none, email? := none, password? := some "hunter2", role? := none }).1
      = some { hashedUser with password := "hunter2" } ∧
    findById (userController.updateUser usersStore 1
        { name? := none, email? := none, password? := some "hunter2", role? := none }).2 1
      = some { hashedUser with password := "hunter2" } ∧
    ∀ salt : String, bcryptHash salt "hunter2" ≠ "hunter2" := by
  refine ⟨by decide, by decide, ?_⟩
  intro salt h
  have hl := congrArg String.length h
  simp only [bcryptHash, String.length_append] at hl
  have e1 : String.length "$2b$10$" = 7 := rfl
  have e2 : String.length "$" = 1 := rfl
  rw [e1, e2] at hl
  omega

/-! ## C5: cancelOrder rejects non-cancellable states and is idempotent -/

theorem incStock_orders (st : State) (pid : Nat) (qty : Int) :
    (incStock st pid qty).orders = st.orders := by
  unfold incStock
  split <;> rfl

theorem incStock_nextOrderId (st : State) (pid : Nat) (qty : Int) :
    (incStock st pid qty).nextOrderId = st.nextOrderId := by
  unfold incStock
  split <;> rfl

theorem restock_orders (items : List OrderItem) (st : State) :
    (restock st items).orders = st.orders := by
  induction items generalizing st with
  | nil => rfl
  | cons it rest ih =>
    show (restock (incStock st it.product it.quantity) rest).orders = st.orders
    rw [ih, incStock_orders]

theorem restock_nextOrderId (items : List OrderItem) (st : State) :
    (restock st items).nextOrderId = st.nextOrderId := by
  induction items generalizing st with
  | nil => rfl
  | cons it rest ih =>
    show (restock (incStock st it.product it.quantity) rest).nextOrderId = st.nextOrderId
    rw [ih, incStock_nextOrderId]

theorem preSave_user (o : OrderDoc) :
    (orderController.preSave o).user = o.user := rfl

theorem preSave_status (o : OrderDoc) :
    (orderController.preSave o).status = o.status := rfl

/-- C5: if the caller is the order's owner or an admin, `cancelOrder` on an
order whose status is neither pending nor processing answers with the
invalid-transition error and returns the state untouched; consequently a
second `cancelOrder` after a successful one fails on the now "cancelled"
status and changes nothing, so stock is restituted exactly once. -/
theorem cancelOrder_restitutes_once (st : State) (p : Principal) (oid : Nat)
    (order : OrderDoc)
    (hfind : findById st.orders oid = some order)
    (hperm : order.user = p.id ∨ p.isAdmin) :
    (¬(order.status = "pending" ∨ order.status = "processing") →
      orderController.cancelOrder st p oid = (.invalidTransition order.status, st)) ∧
    (∀ o st', orderController.cancelOrder st p oid = (.ok o, st') →
      orderController.cancelOrder st' p oid = (.invalidTransition "cancelled", st')) := by
  have hnp : ¬(order.user ≠ p.id ∧ ¬p.isAdmin) := by
    rcases hperm with h | h
    · exact fun hc => hc.1 h
    · exact fun hc => hc.2 h
  constructor
  · intro hstat
    simp only [orderController.cancelOrder, hfind]
    rw [if_neg hnp, if_pos hstat]
  · intro o st' h
    simp only [orderController.cancelOrder, hfind, if_neg hnp] at h
    split at h
    · simp at h
    · rename_i hstat
      split at h
      · simp at h
      · rename_i st2 hsave
        simp only [Prod.mk.injEq, CancelResult.ok.injEq] at h
        obtain ⟨rfl, rfl⟩ := h
        unfold orderController.orderSave at hsave
        split at hsave
        · simp only [Option.some.injEq] at hsave
          subst hsave
          have hfind2 :
              findById
                (saveById (restock st order.items).orders oid
                  (orderController.preSave { order with status := "cancelled" })) oid =
              some (orderController.preSave { order with status := "cancelled" }) := by
            rw [findById_saveById]
            simp [restock_orders, hfind]
          unfold orderController.cancelOrder
          simp only [hfind2]
          rw [if_neg (by simpa [preSave_user] using hnp)]
          rw [if_pos (by simp [preSave_status])]
          rfl
        · simp at hsave

/-- C5 witness: cancelling the sample pending order succeeds, and cancelling
it again answers invalid-transition on "cancelled" without touching state. -/
theorem cancelOrder_restitutes_once_witness :
    orderController.cancelOrder wStateC5 ownerP 7 =
      (.invalidTransition "cancelled", wStateC5) :=
  (cancelOrder_restitutes_once stOrder ownerP 7 orderPending (by decide)
    (Or.inl (by decide))).2 wOrderC5 wStateC5 (by decide)

/-! ## C4: stock restitution on status change to cancelled -/

theorem findById_incStock (st : State) (pid j : Nat) (qty : Int) :
    findById (incStock st pid qty).products j =
      if j = pid then
        (findById st.products pid).map (fun p => { p with stock := p.stock + qty })
      else findById st.products j := by
  unfold incStock
  cases hf : findById st.products pid with
  | none => by_cases hj : j = pid <;> simp [hf, hj]
  | some p =>
    simp only [saveProduct]
    rw [findById_saveById]
    by_cases hj : j = pid <;> simp [hf, hj]

theorem findById_restock (items : List OrderItem) (st : State) (j : Nat) :
    findById (restock st items).products j =
      (findById st.products j).map
        (fun p => { p with stock := p.stock + qtySum j items }) := by
  induction items generalizing st with
  | nil =>
    cases hf : findById st.products j <;> simp [restock, qtySum, hf]
  | cons it rest ih =>
    show findById (restock (incStock st it.product it.quantity) rest).products j = _
    rw [ih, findById_incStock]
    by_cases hj : j = it.product
    · subst hj
      have hq : qtySum it.product (it :: rest) =
          it.quantity + qtySum it.product rest := by
        simp [qtySum, List.filter_cons]
      rw [hq, if_pos rfl]
      cases hf : findById st.products it.product with
      | none => simp [hf]
      | some p => simp [hf, add_assoc]
    · have hq : qtySum j (it :: rest) = qtySum j rest := by
        simp [qtySum, List.filter_cons, Ne.symm hj]
      rw [hq, if_neg hj]

/-- C4 (counterexample): the functional `updateOrderStatus` lets an admin set
a pending order (holding a line of quantity 2) to "cancelled", yet every
product keeps its stock — no restitution happens, contradicting the claim
that the referenced product's stock is incremented by the line quantity. -/
theorem updateOrderStatus_no_restitution_cex :
    (orderController.updateOrderStatus stOrder adminP 7 (some "cancelled") none).1
      = .ok wOrderC5 ∧
    findById (orderController.updateOrderStatus stOrder adminP 7
        (some "cancelled") none).2.orders 7 = some wOrderC5 ∧
    (orderController.updateOrderStatus stOrder adminP 7
        (some "cancelled") none).2.products = stOrder.products ∧
    lineA2.quantity = 2 := by
  decide

/-- C4 (amended): in the class-based `OrderController.updateOrderStatus`, a
successful transition to "cancelled" from a non-cancelled state credits every
product with the total quantity its lines carry in the order, and when the
order is already cancelled the product catalog is untouched (restitution is
never repeated); the functional `updateOrderStatus`, by contrast, never
changes any product stock at all. -/
theorem updateOrderStatus_restitution_amended (st : State) (cp : ClassPrincipal)
    (p : Principal) (oid : Nat) (order : OrderDoc) (status? pay? : Option String)
    (hfind : findById st.orders oid = some order) :
    (∀ o st',
      OrderController.updateOrderStatus st cp oid (some "cancelled") = (.ok o, st') →
      (order.status ≠ "cancelled" →
        ∀ pid, findById st'.products pid =
          (findById st.products pid).map
            (fun q => { q with stock := q.stock + qtySum pid order.items })) ∧
      (order.status = "cancelled" → st'.products = st.products)) ∧
    (orderController.updateOrderStatus st p oid status? pay?).2.products =
      st.products := by
  constructor
  · intro o st' h
    simp only [OrderController.updateOrderStatus, hfind] at h
    split at h
    · split at h
      · simp at h
      · split at h
        · simp at h
        · split at h
          · simp at h
          · split at h
            · simp at h
            · rename_i st2 hsave
              simp only [Prod.mk.injEq, UpdateResult.ok.injEq] at h
              obtain ⟨rfl, rfl⟩ := h
              unfold OrderController.orderSave at hsave
              split at hsave
              · simp only [Option.some.injEq] at hsave
                subst hsave
                constructor
                · intro hne pid
                  show findById (if True ∧ order.status ≠ "cancelled"
                      then restock st order.items else st).products pid = _
                  rw [if_pos (⟨trivial, hne⟩ : True ∧ order.status ≠ "cancelled"),
                    findById_restock]
                · intro heq
                  show (if True ∧ order.status ≠ "cancelled"
                      then restock st order.items else st).products = st.products
                  rw [if_neg (fun hc : True ∧ order.status ≠ "cancelled" => hc.2 heq)]
              · simp at hsave
    · simp at h
  · simp only [orderController.updateOrderStatus]
    split
    · rfl
    · split
      · rfl
      · split
        · rfl
        · rename_i st2 hsave
          unfold orderController.orderSave at hsave
          split at hsave
          · simp only [Option.some.injEq] at hsave
            subst hsave
            rfl
          · simp at hsave

/-- C4 witness: cancelling the pending sample order through the class-based
controller raises product 1's stock by the order's total line quantity. -/
theorem updateOrderStatus_restitution_witness :
    findById wStateC5.products 1 =
      (findById stOrder.products 1).map
        (fun q => { q with stock := q.stock + qtySum 1 orderPending.items }) :=
  ((updateOrderStatus_restitution_amended stOrder ownerC ownerP 7 orderPending
      none none (by decide)).1 wOrderC5 wStateC5 (by decide)).1 (by decide) 1

/-! ## C6: availability check during order creation -/

/-- C6 (counterexample): the functional `createOrder` performs no
`isAvailable` check at all — a line referencing the explicitly unavailable
product `prodU` is accepted and an order is created instead of aborting with
a product-unavailable error. -/
theorem createOrder_unavailable_cex :
    prodU.isAvailable = false ∧
    (orderController.createOrder stUnavail (some 2) (some [⟨1, 2⟩]) "a" none).1
      = .created 1 wOrderC6 := by
  decide

theorem avail_preserved (st : State) (pid : Nat) (p : Product) (s : Int) (j : Nat)
    (hfp : findById st.products pid = some p)
    (h : ∃ q, findById (saveProduct st pid { p with stock := s }).products j =
        some q ∧ q.isAvailable = true) :
    ∃ q, findById st.products j = some q ∧ q.isAvailable = true := by
  obtain ⟨q, hq, hav⟩ := h
  simp only [saveProduct] at hq
  rw [findById_saveById] at hq
  by_cases hj : j = pid
  · subst hj
    rw [hfp] at hq
    obtain rfl : q =
        { name := p.name, price := p.price, stock := s, isAvailable := p.isAvailable } := by
      simpa [eq_comm] using hq
    exact ⟨p, hfp, hav⟩
  · rw [if_neg hj] at hq
    exact ⟨q, hq, hav⟩

theorem classProcessItems_availability (reqs : List ItemReq) (st : State)
    (acc : List OrderItem) (tp ti : Int)
    (res : List OrderItem × Int × Int) (st' : State)
    (h : OrderController.processItems st reqs acc tp ti = (.ok res, st')) :
    ∀ r ∈ reqs, ∃ p, findById st.products r.product = some p ∧
      p.isAvailable = true := by
  induction reqs generalizing st acc tp ti with
  | nil => intro r hr; cases hr
  | cons req rest ih =>
    intro r hr
    unfold OrderController.processItems at h
    split at h
    · simp at h
    · split at h
      · simp at h
      · rename_i product hfp
        split at h
        · simp at h
        · split at h
          · simp at h
          · rename_i hnav hstock
            rcases List.mem_cons.mp hr with rfl | hr'
            · exact ⟨product, hfp, by simpa using hnav⟩
            · exact avail_preserved st req.product product
                (product.stock - req.quantity) r.product hfp
                (ih _ _ _ _ h r hr')

/-- C6 (amended): the class-based `OrderController.createOrder` rejects any
line whose product is unavailable with the product-unavailable error, so a
request it reports as created only references products that exist and are
available in the starting state; the functional `createOrder` never consults
`isAvailable` and creates orders for unavailable products. -/
theorem classCreateOrder_availability (st : State) (cp : ClassPrincipal)
    (items : List ItemReq) (addr : String) (oid : Nat) (o : OrderDoc) (st' : State)
    (h : OrderController.createOrder st cp (some items) addr = (.created oid o, st')) :
    ∀ r ∈ items, ∃ p, findById st.products r.product = some p ∧
      p.isAvailable = true := by
  simp only [OrderController.createOrder] at h
  split at h
  · simp at h
  · split at h
    · rename_i e st1 heq
      cases e <;> simp [LineError.toResult] at h
    · rename_i orderItems tp ti st1 heq
      exact classProcessItems_availability items st [] 0 0 (orderItems, tp, ti) st1 heq

/-- C6 witness: a successful class-based creation on the sample catalog
implies product 1 was available. -/
theorem classCreateOrder_availability_witness : prodA.isAvailable = true := by
  obtain ⟨p, hp, hav⟩ :=
    classCreateOrder_availability stCatalog ownerC [⟨1, 2⟩] "a" 1 wOrderC6b
      wStateC6b (by decide) ⟨1, 2⟩ (List.mem_singleton.mpr rfl)
  have hpa : p = prodA := by
    have h2 : findById stCatalog.products 1 = some prodA := by decide
    rw [h2] at hp
    exact ((Option.some.injEq _ _).mp hp).symm
  rw [← hpa]
  exact hav

/-! ## C7: what a non-admin may do through updateOrderStatus -/

/-- C7 (counterexample): in the functional `updateOrderStatus` a non-admin is
rejected outright — even the owner cancelling their own pending order gets
the forbidden error, so the transition the claim says is permitted is not. -/
theorem updateOrderStatus_nonadmin_cex :
    ownerP.isAdmin = false ∧
    orderPending.user = ownerP.id ∧
    orderPending.status = "pending" ∧
    orderController.updateOrderStatus stOrder ownerP 7 (some "cancelled") none
      = (.forbidden, stOrder) := by
  decide

/-- C7 (amended): every non-admin call to the functional `updateOrderStatus`
returns the forbidden error with the state untouched; in the class-based
variant a non-admin call can only succeed when the target status is
"cancelled" and the order is the caller's own pending order — in particular
a non-admin can never move an order from "pending" to "shipped" — and,
conversely, a non-admin cancelling their own pending order does succeed. -/
theorem nonadmin_transition_policy (st : State) (p : Principal)
    (cp : ClassPrincipal) (oid : Nat) (status? pay? : Option String) :
    (p.isAdmin = false →
      orderController.updateOrderStatus st p oid status? pay? =
        (.forbidden, st)) ∧
    (cp.role ≠ "admin" →
      ∀ o st', OrderController.updateOrderStatus st cp oid status? = (.ok o, st') →
        status? = some "cancelled" ∧
        ∃ order, findById st.orders oid = some order ∧
          order.user = cp.id ∧ order.status = "pending") ∧
    (cp.role ≠ "admin" →
      ∀ order, findById st.orders oid = some order →
        order.user = cp.id → order.status = "pending" →
        (∀ it ∈ order.items, (1 : Int) ≤ it.quantity) →
        (OrderController.updateOrderStatus st cp oid (some "cancelled")).1 =
          .ok (OrderController.preSave { order with status := "cancelled" })) := by
  refine ⟨?_, ?_, ?_⟩
  · intro hadm
    unfold orderController.updateOrderStatus
    rw [if_pos (by simp [hadm])]
  · intro hrole o st' h
    simp only [OrderController.updateOrderStatus] at h
    split at h
    · simp at h
    · rename_i status
      split at h
      · split at h
        · simp at h
        · rename_i order hfind
          split at h
          · simp at h
          · split at h
            · simp at h
            · split at h
              · simp at h
              · rename_i hg1 hg2 hg3
                have huser : order.user = cp.id := by
                  by_contra hne
                  exact hg1 ⟨hrole, hne⟩
                have hstat : status = "cancelled" := by
                  by_contra hne
                  exact hg2 ⟨hrole, hne⟩
                have hpend : order.status = "pending" := by
                  by_contra hne
                  exact hg3 ⟨hrole, hne⟩
                subst hstat
                exact ⟨rfl, order, hfind, huser, hpend⟩
      · simp at h
  · intro hrole order hfind huser hpend hwf
    have hvalid :
        OrderController.validOrderDoc { order with status := "cancelled" } = true := by
      simp [OrderController.validOrderDoc, OrderController.statusEnum,
        List.all_eq_true]
      intro it hit
      exact hwf it hit
    simp only [OrderController.updateOrderStatus, hfind]
    rw [if_pos (show (OrderController.statusEnum.contains "cancelled") = true by decide)]
    rw [if_neg (fun hc : cp.role ≠ "admin" ∧ order.user ≠ cp.id => hc.2 huser)]
    rw [if_neg (fun hc : cp.role ≠ "admin" ∧ "cancelled" ≠ "cancelled" => hc.2 rfl)]
    rw [if_neg (fun hc : cp.role ≠ "admin" ∧ order.status ≠ "pending" => hc.2 hpend)]
    rw [if_pos (⟨trivial, by rw [hpend]; decide⟩ :
      True ∧ order.status ≠ "cancelled")]
    unfold OrderController.orderSave
    rw [if_pos hvalid]

/-- C7 witness: the owner cancelling their own pending order through the
class-based controller succeeds. -/
theorem nonadmin_transition_policy_witness :
    (OrderController.updateOrderStatus stOrder ownerC 7 (some "cancelled")).1 =
      .ok (OrderController.preSave { orderPending with status := "cancelled" }) :=
  (nonadmin_transition_policy stOrder ownerP ownerC 7 (some "cancelled") none).2.2
    (by decide) orderPending (by decide) (by decide) (by decide) (by decide)

/-! ## C1: stock never goes negative under the order workflow -/

theorem stocksNonneg_saveProduct (st : State) (pid : Nat) (p : Product)
    (hst : StocksNonneg st) (hp : 0 ≤ p.stock) :
    StocksNonneg (saveProduct st pid p) := by
  intro kv hkv
  rcases mem_saveById hkv with h | h
  · exact hst kv h
  · subst h
    exact hp

theorem stocksNonneg_incStock (st : State) (pid : Nat) (qty : Int)
    (hst : StocksNonneg st) (hq : 0 ≤ qty) :
    StocksNonneg (incStock st pid qty) := by
  unfold incStock
  split
  · exact hst
  · rename_i p hfp
    exact stocksNonneg_saveProduct st pid _ hst
      (add_nonneg (hst (pid, p) (findById_mem hfp)) hq)

theorem stocksNonneg_restock (items : List OrderItem) (st : State)
    (hst : StocksNonneg st) (hq : ∀ it ∈ items, 0 ≤ it.quantity) :
    StocksNonneg (restock st items) := by
  induction items generalizing st with
  | nil => exact hst
  | cons it rest ih =>
    show StocksNonneg (restock (incStock st it.product it.quantity) rest)
    exact ih (incStock st it.product it.quantity)
      (stocksNonneg_incStock st it.product it.quantity hst
        (hq it (List.mem_cons_self it rest)))
      (fun x hx => hq x (List.mem_cons_of_mem it hx))

theorem processItems_orders (reqs : List ItemReq) (st : State) (acc : List OrderItem) :
    (orderController.processItems st reqs acc).2.orders = st.orders := by
  induction reqs generalizing st acc with
  | nil => rfl
  | cons item rest ih =>
    unfold orderController.processItems
    split
    · rfl
    · rename_i product hfp
      split
      · rfl
      · exact ih _ _

theorem processItems_stocksNonneg (reqs : List ItemReq) (st : State)
    (acc : List OrderItem) (hst : StocksNonneg st) :
    StocksNonneg (orderController.processItems st reqs acc).2 := by
  induction reqs generalizing st acc with
  | nil => exact hst
  | cons item rest ih =>
    unfold orderController.processItems
    split
    · exact hst
    · rename_i product hfp
      split
      · exact hst
      · rename_i hstock
        exact ih _ _
          (stocksNonneg_saveProduct st item.product _ hst
            (sub_nonneg.mpr (le_of_not_lt hstock)))

theorem classProcessItems_orders (reqs : List ItemReq) (st : State)
    (acc : List OrderItem) (tp ti : Int) :
    (OrderController.processItems st reqs acc tp ti).2.orders = st.orders := by
  induction reqs generalizing st acc tp ti with
  | nil => rfl
  | cons item rest ih =>
    unfold OrderController.processItems
    split
    · rfl
    · split
      · rfl
      · rename_i product hfp
        split
        · rfl
        · split
          · rfl
          · exact ih _ _ _ _

theorem classProcessItems_stocksNonneg (reqs : List ItemReq) (st : State)
    (acc : List OrderItem) (tp ti : Int) (hst : StocksNonneg st) :
    StocksNonneg (OrderController.processItems st reqs acc tp ti).2 := by
  induction reqs generalizing st acc tp ti with
  | nil => exact hst
  | cons item rest ih =>
    unfold OrderController.processItems
    split
    · exact hst
    · split
      · exact hst
      · rename_i product hfp
        split
        · exact hst
        · split
          · exact hst
          · rename_i hnav hstock
            exact ih _ _ _ _
              (stocksNonneg_saveProduct st item.product _ hst
                (sub_nonneg.mpr (le_of_not_lt hstock)))

theorem ordersWF_congr {st st' : State} (h : st'.orders = st.orders)
    (hwf : OrdersWF st) : OrdersWF st' := by
  intro kv hkv
  exact hwf kv (h ▸ hkv)

theorem quantities_of_valid (o : OrderDoc)
    (h : orderController.validOrderDoc o = true) :
    ∀ it ∈ o.items, (1 : Int) ≤ it.quantity := by
  simp only [orderController.validOrderDoc, Bool.and_eq_true, List.all_eq_true,
    decide_eq_true_eq] at h
  exact h.1.1

theorem classQuantities_of_valid (o : OrderDoc)
    (h : OrderController.validOrderDoc o = true) :
    ∀ it ∈ o.items, (1 : Int) ≤ it.quantity := by
  simp only [OrderController.validOrderDoc, Bool.and_eq_true, List.all_eq_true,
    decide_eq_true_eq] at h
  exact h.1

theorem classPreSave_items (o : OrderDoc) :
    (OrderController.preSave o).items = o.items := by
  unfold OrderController.preSave
  split <;> rfl

theorem wf_orderCreate (st : State) (o : OrderDoc) (hst : WFState st) :
    WFState (orderController.orderCreate st o).2 := by
  unfold orderController.orderCreate
  split
  · rename_i hvalid
    refine ⟨hst.1, ?_⟩
    intro kv hkv
    rcases List.mem_append.mp hkv with h | h
    · exact hst.2 kv h
    · intro it hit
      obtain rfl : kv = (st.nextOrderId, orderController.preSave o) := by
        simpa using h
      exact quantities_of_valid o hvalid it (by simpa [preSave_items] using hit)
  · exact hst

theorem wf_orderSave (st st' : State) (oid : Nat) (o : OrderDoc)
    (hst : WFState st) (h : orderController.orderSave st oid o = some st') :
    WFState st' := by
  unfold orderController.orderSave at h
  split at h
  · rename_i hvalid
    simp only [Option.some.injEq] at h
    subst h
    refine ⟨hst.1, ?_⟩
    intro kv hkv
    rcases mem_saveById hkv with hm | hm
    · exact hst.2 kv hm
    · subst hm
      intro it hit
      exact quantities_of_valid o hvalid it (by simpa [preSave_items] using hit)
  · simp at h

theorem wf_classOrderCreate (st : State) (o : OrderDoc) (hst : WFState st) :
    WFState (OrderController.orderCreate st o).2 := by
  unfold OrderController.orderCreate
  split
  · rename_i hvalid
    refine ⟨hst.1, ?_⟩
    intro kv hkv
    rcases List.mem_append.mp hkv with h | h
    · exact hst.2 kv h
    · intro it hit
      obtain rfl : kv = (st.nextOrderId, OrderController.preSave o) := by
        simpa using h
      exact classQuantities_of_valid o hvalid it (by simpa [classPreSave_items] using hit)
  · exact hst

theorem wf_classOrderSave (st st' : State) (oid : Nat) (o : OrderDoc)
    (hst : WFState st) (h : OrderController.orderSave st oid o = some st') :
    WFState st' := by
  unfold OrderController.orderSave at h
  split at h
  · rename_i hvalid
    simp only [Option.some.injEq] at h
    subst h
    refine ⟨hst.1, ?_⟩
    intro kv hkv
    rcases mem_saveById hkv with hm | hm
    · exact hst.2 kv hm
    · subst hm
      intro it hit
      exact classQuantities_of_valid o hvalid it (by simpa [classPreSave_items] using hit)
  · simp at h

theorem wf_restock (st : State) (items : List OrderItem) (hst : WFState st)
    (hq : ∀ it ∈ items, 0 ≤ it.quantity) : WFState (restock st items) :=
  ⟨stocksNonneg_restock items st hst.1 hq,
    ordersWF_congr (restock_orders items st) hst.2⟩

theorem wf_createOrder (st : State) (u? : Option Nat)
    (items? : Option (List ItemReq)) (addr : String) (pay? : Option String)
    (hst : WFState st) :
    WFState (orderController.createOrder st u? items? addr pay?).2 := by
  simp only [orderController.createOrder]
  split
  · exact hst
  · split
    · exact hst
    · split
      · exact hst
      · split
        · rename_i e st1 heq
          have h2 : (orderController.processItems st _ []).2 = st1 :=
            congrArg Prod.snd heq
          refine ⟨h2 ▸ processItems_stocksNonneg _ st _ hst.1, ?_⟩
          exact ordersWF_congr (by rw [← h2, processItems_orders]) hst.2
        · rename_i orderItems st1 heq
          have h2 : (orderController.processItems st _ []).2 = st1 :=
            congrArg Prod.snd heq
          have hwf1 : WFState st1 := by
            refine ⟨h2 ▸ processItems_stocksNonneg _ st _ hst.1, ?_⟩
            exact ordersWF_congr (by rw [← h2, processItems_orders]) hst.2
          split
          · rename_i st2 hoc
            have h3 : (orderController.orderCreate st1 _).2 = st2 :=
              congrArg Prod.snd hoc
            exact h3 ▸ wf_orderCreate st1 _ hwf1
          · rename_i oid o' st2 hoc
            have h3 : (orderController.orderCreate st1 _).2 = st2 :=
              congrArg Prod.snd hoc
            exact h3 ▸ wf_orderCreate st1 _ hwf1

theorem wf_classCreateOrder (st : State) (cp : ClassPrincipal)
    (items? : Option (List ItemReq)) (addr : String) (hst : WFState st) :
    WFState (OrderController.createOrder st cp items? addr).2 := by
  simp only [OrderController.createOrder]
  split
  · exact hst
  · split
    · exact hst
    · split
      · rename_i e st1 heq
        have h2 : (OrderController.processItems st _ [] 0 0).2 = st1 :=
          congrArg Prod.snd heq
        refine ⟨h2 ▸ classProcessItems_stocksNonneg _ st _ _ _ hst.1, ?_⟩
        exact ordersWF_congr (by rw [← h2, classProcessItems_orders]) hst.2
      · rename_i orderItems tp ti st1 heq
        have h2 : (OrderController.processItems st _ [] 0 0).2 = st1 :=
          congrArg Prod.snd heq
        have hwf1 : WFState st1 := by
          refine ⟨h2 ▸ classProcessItems_stocksNonneg _ st _ _ _ hst.1, ?_⟩
          exact ordersWF_congr (by rw [← h2, classProcessItems_orders]) hst.2
        split
        · rename_i st2 hoc
          have h3 : (OrderController.orderCreate st1 _).2 = st2 :=
            congrArg Prod.snd hoc
          exact h3 ▸ wf_classOrderCreate st1 _ hwf1
        · rename_i oid o' st2 hoc
          have h3 : (OrderController.orderCreate st1 _).2 = st2 :=
            congrArg Prod.snd hoc
          exact h3 ▸ wf_classOrderCreate st1 _ hwf1

theorem wf_cancelOrder (st : State) (p : Principal) (oid : Nat)
    (hst : WFState st) : WFState (orderController.cancelOrder st p oid).2 := by
  simp only [orderController.cancelOrder]
  split
  · exact hst
  · rename_i order hfind
    split
    · exact hst
    · split
      · exact hst
      · have hq : ∀ it ∈ order.items, (0 : Int) ≤ it.quantity := fun it hit =>
          le_trans zero_le_one (hst.2 (oid, order) (findById_mem hfind) it hit)
        have hwf1 : WFState (restock st order.items) :=
          wf_restock st order.items hst hq
        split
        · exact hwf1
        · rename_i st2 hsave
          exact wf_orderSave _ _ _ _ hwf1 hsave

theorem wf_updateOrderStatus (st : State) (p : Principal) (oid : Nat)
    (status? pay? : Option String) (hst : WFState st) :
    WFState (orderController.updateOrderStatus st p oid status? pay?).2 := by
  simp only [orderController.updateOrderStatus]
  split
  · exact hst
  · split
    · exact hst
    · split
      · exact hst
      · rename_i st2 hsave
        exact wf_orderSave _ _ _ _ hst hsave

theorem wf_classUpdateOrderStatus (st : State) (cp : ClassPrincipal) (oid : Nat)
    (status? : Option String) (hst : WFState st) :
    WFState (OrderController.updateOrderStatus st cp oid status?).2 := by
  simp only [OrderController.updateOrderStatus]
  split
  · exact hst
  · split
    · split
      · exact hst
      · rename_i order hfind
        split
        · exact hst
        · split
          · exact hst
          · split
            · exact hst
            · have hq : ∀ it ∈ order.items, (0 : Int) ≤ it.quantity := fun it hit =>
                le_trans zero_le_one (hst.2 (oid, order) (findById_mem hfind) it hit)
              split
              · split
                · exact wf_restock st order.items hst hq
                · exact hst
              · rename_i st2 hsave
                refine wf_classOrderSave _ _ _ _ ?_ hsave
                split
                · exact wf_restock st order.items hst hq
                · exact hst
    · exact hst

theorem wf_classDeleteOrder (st : State) (cp : ClassPrincipal) (oid : Nat)
    (hst : WFState st) : WFState (OrderController.deleteOrder st cp oid).2 := by
  simp only [OrderController.deleteOrder]
  split
  · exact hst
  · split
    · exact hst
    · rename_i order hfind
      have hq : ∀ it ∈ order.items, (0 : Int) ≤ it.quantity := fun it hit =>
        le_trans zero_le_one (hst.2 (oid, order) (findById_mem hfind) it hit)
      have hwf1 : WFState (if order.status ≠ "cancelled"
          then restock st order.items else st) := by
        split
        · exact wf_restock st order.items hst hq
        · exact hst
      refine ⟨hwf1.1, ?_⟩
      intro kv hkv
      exact hwf1.2 kv (mem_removeById hkv)

theorem wf_applyOp (st : State) (op : Op) (h : WFState st) :
    WFState (applyOp st op) := by
  cases op with
  | create u? items? addr pay? => exact wf_createOrder st u? items? addr pay? h
  | classCreate cp items? addr => exact wf_classCreateOrder st cp items? addr h
  | cancel p oid => exact wf_cancelOrder st p oid h
  | updateStatus p oid s? ps? => exact wf_updateOrderStatus st p oid s? ps? h
  | classUpdateStatus cp oid s? => exact wf_classUpdateOrderStatus st cp oid s? h
  | classDelete cp oid => exact wf_classDeleteOrder st cp oid h

theorem wf_runOps (st : State) (ops : List Op) (h : WFState st) :
    WFState (runOps st ops) := by
  induction ops generalizing st with
  | nil => exact h
  | cons op rest ih => exact ih (applyOp st op) (wf_applyOp st op h)

/-- C1: starting from a well-formed database (all stocks non-negative, all
persisted line quantities at least 1, as the schema validator guarantees),
every finite sequence of order-creation, cancellation, status-update and
deletion operations — in either controller variant — leaves every product's
stock non-negative after each step: creations only decrement after the
`stock >= quantity` check, and cancellation or deletion only increment. -/
theorem stock_nonneg_after_ops (st : State) (ops : List Op) (h : WFState st) :
    StocksNonneg (runOps st ops) :=
  (wf_runOps st ops h).1

/-- C1 witness: a create, a cancel and an admin delete on the sample state. -/
theorem stock_nonneg_after_ops_witness :
    StocksNonneg (runOps stOrder
      [Op.create (some 2) (some [⟨1, 2⟩]) "a" none,
       Op.cancel ownerP 7,
       Op.classDelete adminC 8]) :=
  stock_nonneg_after_ops stOrder
    [Op.create (some 2) (some [⟨1, 2⟩]) "a" none,
     Op.cancel ownerP 7,
     Op.classDelete adminC 8] (by decide)
